import Mathlib

/-!
Verification development for the llmao request dispatch engine.

Shallow embedding conventions:
* `Instant` is modelled as an absolute time in milliseconds (`Nat`);
  `Duration` is a length of time in milliseconds (`Nat`).  Functions of the
  source that call `Instant::now()` take an explicit `now : Nat` argument.
* Rust `u64`/`u32` decimal parsing is modelled by `parseNat?` below (digit
  strings only; the rarely used leading `+` form of Rust's integer parse
  and its overflow bound are not modelled, no claim depends on them).
* HTTP headers are modelled as an association list; `get` returns the first
  value stored under a name, as `reqwest::HeaderMap::get` does.
* Fallible operations return `Except LlmaoError` / `Option`.
-/

namespace Llmao

/-! ### Error type (src/error.rs) -/

/-- Mirrors `LlmaoError` from src/error.rs (variants relevant to the engine;
payloads kept as in the source). -/
inductive LlmaoError where
  | Config (msg : String)
  | ProviderNotFound (name : String)
  | NoKeysAvailable (provider : String)
  | RateLimited (provider : String) (retry_after : Option Nat)
  | Request (msg : String)
  | Response (msg : String)
  | Stream (msg : String)
  | Auth (msg : String)
  | Timeout (msg : String)
  | Internal (msg : String)
deriving Repr, DecidableEq

/-! ### String primitives

Lean's built-in `String` functions are backed by opaque native code and
do not reduce inside the kernel, so the Rust string operations used by
the source are modelled directly on the character list underlying a
`String`.  Semantics follow Rust's `&str` methods (`trim`, `split`,
`ends_with`, `contains`, `to_lowercase` restricted to ASCII, and integer
parsing restricted to plain digit strings — Rust's integer parse also
accepts a leading `+`, which no claim depends on). -/

/-- ASCII digit test (Rust `char::is_ascii_digit`). -/
def isDigitChar (c : Char) : Bool := decide (48 ≤ c.toNat ∧ c.toNat ≤ 57)

/-- ASCII whitespace test (the characters Rust `str::trim` strips that
can occur in a header value). -/
def isWhitespaceChar (c : Char) : Bool :=
  decide (c.toNat = 32 ∨ c.toNat = 9 ∨ c.toNat = 10 ∨ c.toNat = 13)

/-- Rust `str::parse::<u64>` on plain digit strings. -/
def parseNat? (s : String) : Option Nat :=
  let cs := s.toList
  if cs ≠ [] ∧ cs.all isDigitChar then
    some (cs.foldl (fun a c => a * 10 + (c.toNat - 48)) 0)
  else none

/-- Rust `str::trim`. -/
def strTrim (s : String) : String :=
  String.mk (((s.toList.dropWhile isWhitespaceChar).reverse.dropWhile
    isWhitespaceChar).reverse)

/-- Rust `str::ends_with`. -/
def strEndsWith (s t : String) : Bool :=
  decide (t.toList.length ≤ s.toList.length) &&
    decide (s.toList.drop (s.toList.length - t.toList.length) = t.toList)

/-- Rust `str::strip_suffix`'s survivor: the string without its last `n`
characters. -/
def strDropRight (s : String) (n : Nat) : String :=
  String.mk (s.toList.take (s.toList.length - n))

/-- Rust `str::contains(char)`. -/
def strContainsChar (s : String) (c : Char) : Bool :=
  s.toList.any (fun x => decide (x = c))

/-- Rust `str::split(char)`: `n` separators yield `n+1` parts, empty
parts included ("".split gives [""]). -/
def splitOnChar (s : String) (sep : Char) : List String :=
  (s.toList.foldr
    (fun c acc =>
      if c = sep then [] :: acc
      else
        match acc with
        | h :: t => (c :: h) :: t
        | [] => [[c]])
    [[]]).map String.mk

/-- ASCII lowercase of one character. -/
def charToLower (c : Char) : Char :=
  if 65 ≤ c.toNat ∧ c.toNat ≤ 90 then Char.ofNat (c.toNat + 32) else c

/-- Rust `str::to_lowercase`, restricted to ASCII (the rate-limit body
markers are ASCII). -/
def strToLower (s : String) : String := String.mk (s.toList.map charToLower)

/-- Rust `str::contains(&str)`: substring search. -/
def strContainsSub (s pat : String) : Bool :=
  (List.range (s.toList.length + 1)).any
    (fun i => decide ((s.toList.drop i).take pat.toList.length = pat.toList))

/-! ### Duration parsing (src/client/rate_limiter.rs, parse_duration_string) -/

/-- One step of the digit-accumulating loop in `parse_duration_string`
(the "complex format" branch): state is (total seconds so far, pending
digit run). -/
def durStep (p : Nat × String) (c : Char) : Nat × String :=
  if isDigitChar c then (p.1, p.2.push c)
  else if p.2 ≠ "" then
    let t :=
      match parseNat? p.2 with
      | some n =>
        if c = 'h' then p.1 + n * 3600
        else if c = 'm' then p.1 + n * 60
        else if c = 's' then p.1 + n
        else p.1
      | none => p.1
    (t, "")
  else p

/-- Models Rust `str::parse::<f64>` (as used on the digits before a bare
`s` suffix) for plain decimal strings, at millisecond precision: accepts
digit strings with an optional single decimal point ("30", "1.5", "30.",
".5"); exotic float syntax (exponent, sign, inf/nan) is not modelled, and
digits beyond the millisecond are truncated.  Returns milliseconds. -/
def parseDecimalSecsToMs (s : String) : Option Nat :=
  match splitOnChar s '.' with
  | [i] =>
    if i ≠ "" ∧ i.toList.all isDigitChar then (parseNat? i).map (· * 1000)
    else none
  | [i, f] =>
    if (i ≠ "" ∨ f ≠ "") ∧ i.toList.all isDigitChar ∧ f.toList.all isDigitChar then
      some (((parseNat? i).getD 0) * 1000 +
        ((parseNat? (String.mk ((f.toList ++ ['0', '0', '0']).take 3))).getD 0))
    else none
  | _ => none

/-- Mirrors `parse_duration_string` from src/client/rate_limiter.rs.
Returns the parsed duration in milliseconds.  The source:
1. trims, 2. if the string ends in "ms" parses the rest as integer
milliseconds and returns, 3. if the string contains 'h' or both 'm' and
's', runs the digit/unit accumulation loop and returns the total if it is
positive, 4. otherwise tries the single-unit suffixes 's' (float seconds),
'm' (integer minutes), 'h' (integer hours). -/
def parse_duration_string (s : String) : Option Nat :=
  let s := strTrim s
  if strEndsWith s "ms" then parseNat? (strDropRight s 2)
  else
    let complexTotal : Nat :=
      if strContainsChar s 'h' ∨ (strContainsChar s 'm' ∧ strContainsChar s 's') then
        (s.toList.foldl durStep (0, "")).1
      else 0
    if complexTotal > 0 then some (complexTotal * 1000)
    else if strEndsWith s "s" then parseDecimalSecsToMs (strDropRight s 1)
    else if strEndsWith s "m" then (parseNat? (strDropRight s 1)).map (· * 60000)
    else if strEndsWith s "h" then (parseNat? (strDropRight s 1)).map (· * 3600000)
    else none

/-! ### Rate limit tracker state (src/client/rate_limiter.rs) -/

/-- Mirrors `ProviderRateLimit`: per-provider rate limit info.  Times in
milliseconds (`reset_at` absolute, `retry_after` a duration). -/
structure ProviderRateLimit where
  requests_remaining : Option Nat := none
  tokens_remaining : Option Nat := none
  reset_at : Option Nat := none
  retry_after : Option Nat := none
deriving Repr, DecidableEq

/-- Header lookup: first value stored under `key` (as `HeaderMap::get`). -/
def headerGet (headers : List (String × String)) (key : String) : Option String :=
  (headers.find? (fun h => h.1 = key)).map (fun h => h.2)

/-- Mirrors `RateLimitTracker::update_from_response` acting on one
provider's entry (the source fetches the entry with `or_default`, which the
tracker-level wrapper below models).  Parses the remaining-requests header
as an integer and the reset header as integer seconds or a duration
string; unparseable or absent headers leave the prior state untouched. -/
def update_from_response (info : ProviderRateLimit)
    (headers : List (String × String))
    (remaining_header reset_header : Option String) (now : Nat) :
    ProviderRateLimit :=
  let remaining_key := remaining_header.getD "x-ratelimit-remaining-requests"
  let info :=
    match headerGet headers remaining_key with
    | some s =>
      match parseNat? s with
      | some n => { info with requests_remaining := some n }
      | none => info
    | none => info
  let reset_key := reset_header.getD "x-ratelimit-reset-requests"
  match headerGet headers reset_key with
  | some s =>
    match parseNat? s with
    | some secs => { info with reset_at := some (now + secs * 1000) }
    | none =>
      match parse_duration_string s with
      | some d => { info with reset_at := some (now + d) }
      | none => info
  | none => info

/-- Mirrors `RateLimitTracker::update_from_rate_limit_error` acting on one
provider's entry: extracts the retry-after header (integer seconds, else a
duration string), defaults to 60 seconds when absent or unparseable,
stores it as both `retry_after` and the new `reset_at`, and returns it. -/
def update_from_rate_limit_error (info : ProviderRateLimit)
    (headers : List (String × String))
    (retry_after_header : Option String) (now : Nat) :
    ProviderRateLimit × Nat :=
  let retry_key := retry_after_header.getD "retry-after"
  let retry_duration : Option Nat :=
    match headerGet headers retry_key with
    | some s =>
      match parseNat? s with
      | some secs => some (secs * 1000)
      | none => parse_duration_string s
    | none => none
  let duration := retry_duration.getD 60000
  ({ info with retry_after := some duration, reset_at := some (now + duration) },
   duration)

/-- Mirrors `RateLimitTracker::should_wait` on one provider's entry:
first, zero remaining requests with a future reset deadline yields the
time to that deadline; otherwise a set retry-after yields the time to the
reset deadline when that is in the future, the raw retry-after when no
deadline is stored, and nothing when the stored deadline has passed. -/
def should_wait (info : ProviderRateLimit) (now : Nat) : Option Nat :=
  let first : Option Nat :=
    if info.requests_remaining = some 0 then
      match info.reset_at with
      | some reset_at => if now < reset_at then some (reset_at - now) else none
      | none => none
    else none
  match first with
  | some w => some w
  | none =>
    match info.retry_after with
    | some retry_after =>
      match info.reset_at with
      | some reset_at => if now < reset_at then some (reset_at - now) else none
      | none => some retry_after
    | none => none

/-- Tracker-level view of one provider's state: `none` means no entry has
been created yet for the provider. -/
def trackerShouldWait (st : Option ProviderRateLimit) (now : Nat) : Option Nat :=
  match st with
  | none => none
  | some info => should_wait info now

/-- Tracker-level `update_from_response`: the entry is created with
`or_default` before being updated. -/
def trackerUpdateFromResponse (st : Option ProviderRateLimit)
    (headers : List (String × String))
    (remaining_header reset_header : Option String) (now : Nat) :
    Option ProviderRateLimit :=
  some (update_from_response (st.getD {}) headers remaining_header reset_header now)

/-- Tracker-level `update_from_rate_limit_error`. -/
def trackerUpdateFromRateLimitError (st : Option ProviderRateLimit)
    (headers : List (String × String))
    (retry_after_header : Option String) (now : Nat) :
    Option ProviderRateLimit × Nat :=
  let r := update_from_rate_limit_error (st.getD {}) headers retry_after_header now
  (some r.1, r.2)

/-- Mirrors `RateLimitTracker::is_rate_limit_error`: HTTP 429
unconditionally, else case-insensitive body markers. -/
def is_rate_limit_error (status : Nat) (body : String) : Bool :=
  if status = 429 then true
  else
    let lower_body := strToLower body
    strContainsSub lower_body "rate limit"
      ∨ strContainsSub lower_body "rate_limit"
      ∨ strContainsSub lower_body "too many requests"
      ∨ strContainsSub lower_body "quota exceeded"

/-! ### Model routing (src/router/strategy.rs) -/

/-- Mirrors `ModelRoute`. -/
structure ModelRoute where
  provider : String
  model : String
  variant : Option String
deriving Repr, DecidableEq

/-- Mirrors `ModelRoute::parse`: split on '/', accept exactly 2 or 3
parts, otherwise a `Config` error echoing the input and the accepted
shapes. -/
def ModelRoute.parse (model_string : String) : Except LlmaoError ModelRoute :=
  let parts := splitOnChar model_string '/'
  if parts.length = 2 then
    .ok { provider := parts.getD 0 "", model := parts.getD 1 "", variant := none }
  else if parts.length = 3 then
    .ok { provider := parts.getD 0 "", model := parts.getD 1 "",
          variant := some (parts.getD 2 "") }
  else
    .error (.Config ("Invalid model format '" ++ model_string ++
      "'. Expected 'provider/model' or 'provider/model/variant'"))

/-- Mirrors `ModelRoute::model_id`. -/
def ModelRoute.model_id (r : ModelRoute) : String :=
  match r.variant with
  | some variant => r.model ++ "/" ++ variant
  | none => r.model

/-! ### Key pool (src/router/key_pool.rs) -/

/-- Mirrors `RotationStrategy` from src/config/provider.rs. -/
inductive RotationStrategy where
  | RoundRobin
  | LeastRecentlyUsed
  | Random
deriving Repr, DecidableEq

/-- Mirrors `ApiKey`: the secret value, an optional cooldown deadline
(absolute ms), a usage counter and a last-used timestamp. -/
structure ApiKey where
  value : String
  rate_limited_until : Option Nat := none
  request_count : Nat := 0
  last_used : Nat := 0
deriving Repr, DecidableEq

instance : Inhabited ApiKey := ⟨{ value := "" }⟩

/-- Mirrors `ApiKey::is_rate_limited`. -/
def ApiKey.is_rate_limited (k : ApiKey) (now : Nat) : Bool :=
  match k.rate_limited_until with
  | some until_t => now < until_t
  | none => false

/-- Mirrors `ApiKey::rate_limit_remaining`. -/
def ApiKey.rate_limit_remaining (k : ApiKey) (now : Nat) : Option Nat :=
  match k.rate_limited_until with
  | some until_t => if now < until_t then some (until_t - now) else none
  | none => none

/-- Mirrors `ApiKey::mark_rate_limited`. -/
def ApiKey.mark_rate_limited (k : ApiKey) (duration now : Nat) : ApiKey :=
  { k with rate_limited_until := some (now + duration) }

/-- Mirrors `KeyPool` (keys, shared round-robin cursor, strategy). -/
structure KeyPool where
  provider : String
  keys : List ApiKey
  current_index : Nat := 0
  strategy : RotationStrategy
deriving Repr, DecidableEq

/-- Rust `Iterator::min_by_key` over a key list: the first element
attaining the minimal key value, `none` on the empty list. -/
def minByFirst (f : ApiKey → Nat) : List ApiKey → Option ApiKey
  | [] => none
  | k :: rest =>
    match minByFirst f rest with
    | none => some k
    | some m => if f m < f k then some m else some k

/-- Mirrors `KeyPool::get_soonest_available`: minimum by remaining cooldown
(a key without cooldown counts as zero). -/
def get_soonest_available (keys : List ApiKey) (now : Nat) : Option ApiKey :=
  minByFirst (fun k => (k.rate_limit_remaining now).getD 0) keys

/-- The `while attempts < len` scan of `KeyPool::get_round_robin`:
`fetch_add` hands out `cur % len` and bumps the shared counter; the first
non-rate-limited key is returned with the counter value after its bump.
`fuel` is `len - attempts`. -/
def rrFind (keys : List ApiKey) (now : Nat) :
    Nat → Nat → Option (ApiKey × Nat)
  | _, 0 => none
  | cur, fuel + 1 =>
    let idx := cur % keys.length
    let key := keys.getD idx default
    if key.is_rate_limited now then rrFind keys now (cur + 1) fuel
    else some (key, cur + 1)

/-- Mirrors `KeyPool::get_round_robin`, returning the selected key and the
pool with its advanced cursor. -/
def get_round_robin (p : KeyPool) (now : Nat) : Option ApiKey × KeyPool :=
  match rrFind p.keys now p.current_index p.keys.length with
  | some (k, cur) => (some k, { p with current_index := cur })
  | none =>
    (get_soonest_available p.keys now,
     { p with current_index := p.current_index + p.keys.length })

/-- Mirrors `KeyPool::get_lru`. -/
def get_lru (p : KeyPool) (now : Nat) : Option ApiKey :=
  match minByFirst ApiKey.last_used
      (p.keys.filter (fun k => ! k.is_rate_limited now)) with
  | some k => some k
  | none => get_soonest_available p.keys now

/-- Mirrors `KeyPool::get_random`.  The source draws an arbitrary `u64`
from a freshly built hasher and indexes the available keys with it modulo
their count; the draw is modelled as an explicit `seed` argument. -/
def get_random (p : KeyPool) (now seed : Nat) : Option ApiKey :=
  let available := p.keys.filter (fun k => ! k.is_rate_limited now)
  if available.isEmpty then get_soonest_available p.keys now
  else some (available.getD (seed % available.length) default)

/-- Mirrors `KeyPool::get_key` (the `seed` is consumed only by the random
strategy). -/
def KeyPool.get_key (p : KeyPool) (now seed : Nat) : Option ApiKey × KeyPool :=
  if p.keys.isEmpty then (none, p)
  else
    match p.strategy with
    | .RoundRobin => get_round_robin p now
    | .LeastRecentlyUsed => (get_lru p now, p)
    | .Random => (get_random p now seed, p)

/-- Mirrors `KeyPool::all_rate_limited`. -/
def KeyPool.all_rate_limited (p : KeyPool) (now : Nat) : Bool :=
  p.keys.all (fun k => k.is_rate_limited now)

/-! ### Stream accumulator (src/api/streaming.rs) -/

/-- Mirrors `Usage` from src/api/completion.rs. -/
structure Usage where
  prompt_tokens : Nat
  completion_tokens : Nat
  total_tokens : Nat
deriving Repr, DecidableEq

/-- Mirrors `FunctionDelta`. -/
structure FunctionDelta where
  name : Option String := none
  arguments : Option String := none
deriving Repr, DecidableEq

/-- Mirrors `ToolCallDelta`. -/
structure ToolCallDelta where
  index : Nat
  id : Option String := none
  call_type : Option String := none
  function : Option FunctionDelta := none
deriving Repr, DecidableEq

/-- Mirrors `StreamDelta`. -/
structure StreamDelta where
  role : Option String := none
  content : Option String := none
  tool_calls : Option (List ToolCallDelta) := none
deriving Repr, DecidableEq

/-- Mirrors `StreamChoice`. -/
structure StreamChoice where
  index : Nat
  delta : StreamDelta
  finish_reason : Option String := none
deriving Repr, DecidableEq

/-- Mirrors `StreamChunk`. -/
structure StreamChunk where
  id : String
  object : String
  created : Nat
  model : String
  choices : List StreamChoice
  usage : Option Usage := none
deriving Repr, DecidableEq

/-- Mirrors `ToolCallAccumulator` (all fields default to ""). -/
structure ToolCallAccumulator where
  id : String := ""
  call_type : String := ""
  name : String := ""
  arguments : String := ""
deriving Repr, DecidableEq

instance : Inhabited ToolCallAccumulator := ⟨{}⟩

/-- Mirrors `StreamAccumulator` (`Default` gives all-empty state). -/
structure StreamAccumulator where
  content : String := ""
  tool_calls : List ToolCallAccumulator := []
  role : Option String := none
  finish_reason : Option String := none
  id : Option String := none
  model : Option String := none
  created : Option Nat := none
  usage : Option Usage := none
deriving Repr, DecidableEq

/-- The `while self.tool_calls.len() <= idx` growth loop: pad with default
entries until the vector has length `max (len, idx+1)`. -/
def growTo (tcs : List ToolCallAccumulator) (idx : Nat) :
    List ToolCallAccumulator :=
  tcs ++ List.replicate (idx + 1 - tcs.length) ({} : ToolCallAccumulator)

/-- The per-delta merge body of `process_chunk`: `id` and `call_type` are
assigned whenever the delta carries them; `name` and `arguments` are
appended. -/
def mergeToolCallDelta (tc : ToolCallAccumulator) (d : ToolCallDelta) :
    ToolCallAccumulator :=
  let tc :=
    match d.id with
    | some i => { tc with id := i }
    | none => tc
  let tc :=
    match d.call_type with
    | some t => { tc with call_type := t }
    | none => tc
  match d.function with
  | some f =>
    let tc :=
      match f.name with
      | some n => { tc with name := tc.name ++ n }
      | none => tc
    match f.arguments with
    | some a => { tc with arguments := tc.arguments ++ a }
    | none => tc
  | none => tc

/-- One tool-call delta applied to the accumulated vector: grow, then merge
in place at the delta's index. -/
def applyToolCallDelta (tcs : List ToolCallAccumulator) (d : ToolCallDelta) :
    List ToolCallAccumulator :=
  let grown := growTo tcs d.index
  grown.set d.index (mergeToolCallDelta (grown.getD d.index {}) d)

/-- The per-choice body of `StreamAccumulator::process_chunk`. -/
def processChoice (acc : StreamAccumulator) (choice : StreamChoice) :
    StreamAccumulator :=
  let acc :=
    match choice.delta.role with
    | some role => if acc.role.isNone then { acc with role := some role } else acc
    | none => acc
  let acc :=
    match choice.delta.content with
    | some content => { acc with content := acc.content ++ content }
    | none => acc
  let acc :=
    match choice.delta.tool_calls with
    | some tool_calls =>
      { acc with tool_calls := tool_calls.foldl applyToolCallDelta acc.tool_calls }
    | none => acc
  match choice.finish_reason with
  | some reason => { acc with finish_reason := some reason }
  | none => acc

/-- Mirrors `StreamAccumulator::process_chunk` (the source always returns
`Ok(())`; the new accumulator is the interesting value). -/
def process_chunk (acc : StreamAccumulator) (chunk : StreamChunk) :
    StreamAccumulator :=
  let acc :=
    if acc.id.isNone then
      { acc with id := some chunk.id, model := some chunk.model,
                 created := some chunk.created }
    else acc
  let acc := if chunk.usage.isSome then { acc with usage := chunk.usage } else acc
  chunk.choices.foldl processChoice acc

/-- Mirrors `FunctionCall` from src/api/completion.rs. -/
structure FunctionCall where
  name : String
  arguments : String
deriving Repr, DecidableEq

/-- Mirrors `ToolCall` from src/api/completion.rs. -/
structure ToolCall where
  id : String
  call_type : String
  function : FunctionCall
deriving Repr, DecidableEq

/-- Mirrors `ContentPart` from src/api/completion.rs. -/
inductive ContentPart where
  | text (text : String)
  | image_url (url : String) (detail : Option String)
deriving Repr, DecidableEq

/-- Mirrors `MessageContent` from src/api/completion.rs. -/
inductive MessageContent where
  | Text (s : String)
  | Parts (parts : List ContentPart)
deriving Repr, DecidableEq

/-- Mirrors `Message` from src/api/completion.rs. -/
structure Message where
  role : String
  content : MessageContent
  name : Option String := none
  tool_calls : Option (List ToolCall) := none
  tool_call_id : Option String := none
deriving Repr, DecidableEq

/-- Mirrors `StreamAccumulator::into_message`. -/
def into_message (acc : StreamAccumulator) : Message :=
  let tool_calls :=
    if acc.tool_calls.isEmpty then none
    else
      some (acc.tool_calls.map (fun tc =>
        { id := tc.id, call_type := tc.call_type,
          function := { name := tc.name, arguments := tc.arguments } : ToolCall }))
  { role := acc.role.getD "assistant",
    content := .Text acc.content,
    name := none,
    tool_calls := tool_calls,
    tool_call_id := none }

/-! ### Retrying transport (src/client/http.rs, HttpClient::post_with_retry)

The transport loop is modelled operationally: the environment supplies a
trace of per-attempt outcomes (a received HTTP response, or a transport
error that is or is not connect/timeout).  The loop consumes one trace
element per iteration; `none` means the trace was exhausted before the
loop returned (the loop body performs at most `max_retries` `continue`s,
so a long enough trace always produces a result — proved below). -/

/-- Status, headers and body of a received HTTP response. -/
structure HttpResponseData where
  status : Nat
  headers : List (String × String)
  body : String
deriving Repr, DecidableEq

/-- One attempt's outcome as seen by the retry loop. -/
inductive AttemptOutcome where
  | response (r : HttpResponseData)
  | transport (is_connect_or_timeout : Bool) (err : LlmaoError)
deriving Repr, DecidableEq

/-- The body of `post_with_retry`'s `loop`, recursing over the outcome
trace and threading the provider's tracker entry and the retry counter.
Status/body handling follows the source: success parses the body (a parse
failure is a final `Response` error with a truncated body snippet);
a rate-limit signal bumps `retries` and either fails with `RateLimited`
(budget exceeded) or backs off and resends; 401/403 is a final `Auth`
error; anything else is a final `Request` error.  A transport error bumps
`retries`, fails when the budget is exceeded, resends when it was a
connect/timeout error and fails otherwise. -/
def post_with_retry_go {β : Type} (parseBody : String → Option β)
    (provider : String) (max_retries now : Nat) :
    Option ProviderRateLimit → Nat → List AttemptOutcome →
    Option (Except LlmaoError β × Option ProviderRateLimit)
  | _, _, [] => none
  | tracker, retries, a :: rest =>
    match a with
    | .response r =>
      let tracker := trackerUpdateFromResponse tracker r.headers none none now
      if 200 ≤ r.status ∧ r.status ≤ 299 then
        let result : Except LlmaoError β :=
          match parseBody r.body with
          | some v => Except.ok v
          | none =>
            Except.error (.Response ("Failed to parse response. Body: " ++
              r.body.take 500))
        some (result, tracker)
      else if is_rate_limit_error r.status r.body then
        if retries + 1 > max_retries then
          some (Except.error (.RateLimited provider none), tracker)
        else
          post_with_retry_go parseBody provider max_retries now tracker
            (retries + 1) rest
      else if r.status = 401 ∨ r.status = 403 then
        some (Except.error (.Auth ("Authentication failed: " ++ r.body)), tracker)
      else
        some (Except.error (.Request ("Request failed with status " ++
          toString r.status ++ ": " ++ r.body)), tracker)
    | .transport is_ct err =>
      if retries + 1 > max_retries then some (Except.error err, tracker)
      else if is_ct then
        post_with_retry_go parseBody provider max_retries now tracker
          (retries + 1) rest
      else some (Except.error err, tracker)

/-- `post_with_retry` entered with `retries = 0`. -/
def post_with_retry {β : Type} (parseBody : String → Option β)
    (provider : String) (max_retries now : Nat)
    (tracker : Option ProviderRateLimit) (trace : List AttemptOutcome) :
    Option (Except LlmaoError β × Option ProviderRateLimit) :=
  post_with_retry_go parseBody provider max_retries now tracker 0 trace

/-! ### Dispatch loop (src/lib.rs, LlmClient::completion)

The `for _ in 0..max_attempts` credential-rotation loop, with the
per-attempt transport result supplied as a list (one element per loop
iteration; the list length is the attempt budget).  A rate-limited
attempt cools the key down (a pool side effect not needed here) and
replaces `last_error` with `RateLimited` naming the route's provider. -/

def completion_loop {β : Type} (provider : String) :
    List (Except LlmaoError β) → Option LlmaoError → Except LlmaoError β
  | [], last_error => Except.error (last_error.getD (.NoKeysAvailable provider))
  | r :: rest, last_error =>
    match r with
    | .ok v => .ok v
    | .error (.RateLimited _ retry_after) =>
      completion_loop provider rest (some (.RateLimited provider retry_after))
    | .error e => .error e

/-! ### Derived definitions used by the statements below -/

/-- An attempt outcome that `post_with_retry` classifies as a rate-limit
signal: a non-success response matching `is_rate_limit_error`. -/
def isRateLimitedAttempt : AttemptOutcome → Bool
  | .response r =>
    !(decide (200 ≤ r.status ∧ r.status ≤ 299)) && is_rate_limit_error r.status r.body
  | .transport _ _ => false

/-- `n` consecutive selections through `get_key`, collecting the returned
keys and threading the pool (round-robin consumes no seed; 0 is passed). -/
def selectRR (p : KeyPool) (now : Nat) : Nat → List (Option ApiKey) × KeyPool
  | 0 => ([], p)
  | n + 1 =>
    let r := p.get_key now 0
    let rest := selectRR r.2 now n
    (r.1 :: rest.1, rest.2)

/-- The retry-after value of a tracker entry (absent entry reads as the
default entry, whose retry-after is unset). -/
def trackerRetryAfter (st : Option ProviderRateLimit) : Option Nat :=
  (st.getD {}).retry_after

/-- The tool-call deltas of one choice applied to the accumulated vector
(the view of `processChoice` restricted to the `tool_calls` field). -/
def applyChoiceToolCalls (tcs : List ToolCallAccumulator) (ch : StreamChoice) :
    List ToolCallAccumulator :=
  (ch.delta.tool_calls.getD []).foldl applyToolCallDelta tcs

/-- The tool-call deltas of one chunk applied to the accumulated vector
(the view of `process_chunk` restricted to the `tool_calls` field). -/
def applyChunkToolCalls (tcs : List ToolCallAccumulator) (c : StreamChunk) :
    List ToolCallAccumulator :=
  c.choices.foldl applyChoiceToolCalls tcs

/-! ### Concrete example inputs for counterexamples and witnesses -/

/-- First chunk of the spec's end-to-end example. -/
def exChunk1 : StreamChunk :=
  { id := "test", object := "chat.completion.chunk", created := 12345,
    model := "gpt-4",
    choices := [{ index := 0,
                  delta := { role := some "assistant", content := some "Hello" } }] }

/-- Second chunk of the spec's end-to-end example. -/
def exChunk2 : StreamChunk :=
  { id := "test", object := "chat.completion.chunk", created := 12345,
    model := "gpt-4",
    choices := [{ index := 0, delta := { content := some " World" },
                  finish_reason := some "stop" }] }

/-- A chunk carrying a single tool-call delta. -/
def toolChunk (d : ToolCallDelta) : StreamChunk :=
  { id := "i", object := "chat.completion.chunk", created := 0, model := "m",
    choices := [{ index := 0, delta := { tool_calls := some [d] } }] }

/-- A first tool-call delta at index 0 supplying all identity fields. -/
def exToolDelta1 : ToolCallDelta :=
  { index := 0, id := some "call_a", call_type := some "function",
    function := some { name := some "f", arguments := some "x" } }

/-- A second tool-call delta at index 0 supplying all identity fields
again. -/
def exToolDelta2 : ToolCallDelta :=
  { index := 0, id := some "call_b", call_type := some "tool",
    function := some { name := some "oo", arguments := some "y" } }

/-- A chunk whose only tool-call delta targets index 2 (indices 0 and 1
never receive a delta). -/
def exSparseChunk : StreamChunk := toolChunk { index := 2, id := some "z" }

/-- A pool whose three keys are all cooled down (deadlines 50, 30, 90). -/
def exPoolAllCooled : KeyPool :=
  { provider := "p", strategy := .RoundRobin,
    keys := [{ value := "a", rate_limited_until := some 50 },
             { value := "b", rate_limited_until := some 30 },
             { value := "c", rate_limited_until := some 90 }] }

/-- A pool with one cooled and one usable key. -/
def exPoolMixed : KeyPool :=
  { provider := "p", strategy := .RoundRobin,
    keys := [{ value := "a", rate_limited_until := some 50 },
             { value := "b" }] }

/-- A three-key pool with no cooldowns. -/
def exPoolFree : KeyPool :=
  { provider := "p", strategy := .RoundRobin,
    keys := [{ value := "k1" }, { value := "k2" }, { value := "k3" }] }

/-- A bare HTTP 429 response with no headers. -/
def exOutcome429 : AttemptOutcome :=
  .response { status := 429, headers := [], body := "" }

/-! ## Helper lemmas -/

theorem growTo_length (tcs : List ToolCallAccumulator) (i : Nat) :
    (growTo tcs i).length = max tcs.length (i + 1) := by
  simp [growTo]
  omega

theorem growTo_getElem_lt (tcs : List ToolCallAccumulator) (i j : Nat)
    (h : j < tcs.length) : (growTo tcs i)[j]? = tcs[j]? := by
  simp [growTo, List.getElem?_append, h]

theorem growTo_getElem_ge (tcs : List ToolCallAccumulator) (i j : Nat)
    (h1 : tcs.length ≤ j) (h2 : j < i + 1) :
    (growTo tcs i)[j]? = some {} := by
  simp only [growTo, List.getElem?_append, List.getElem?_replicate]
  split
  · omega
  · split
    · rfl
    · omega

theorem growTo_getElem_out (tcs : List ToolCallAccumulator) (i j : Nat)
    (h1 : tcs.length ≤ j) (h2 : i + 1 ≤ j) :
    (growTo tcs i)[j]? = none := by
  simp only [growTo, List.getElem?_append, List.getElem?_replicate]
  split
  · omega
  · split
    · omega
    · rfl

theorem growTo_getD_self (tcs : List ToolCallAccumulator) (i : Nat) :
    (growTo tcs i).getD i {} = tcs.getD i {} := by
  rcases Nat.lt_or_ge i tcs.length with h | h
  · simp [List.getD_eq_getElem?_getD, growTo_getElem_lt tcs i i h]
  · have hgt := growTo_getElem_ge tcs i i h (Nat.lt_succ_self i)
    have hout : tcs[i]? = none := by
      simp [List.getElem?_eq_none_iff]
      omega
    simp [List.getD_eq_getElem?_getD, hgt, hout]

theorem applyToolCallDelta_length (tcs : List ToolCallAccumulator)
    (d : ToolCallDelta) :
    (applyToolCallDelta tcs d).length = max tcs.length (d.index + 1) := by
  simp [applyToolCallDelta, growTo_length]

theorem applyToolCallDelta_getD_self (tcs : List ToolCallAccumulator)
    (d : ToolCallDelta) :
    (applyToolCallDelta tcs d).getD d.index {} =
      mergeToolCallDelta (tcs.getD d.index {}) d := by
  have hlen : d.index < (growTo tcs d.index).length := by
    rw [growTo_length]
    omega
  simp only [applyToolCallDelta, List.getD_eq_getElem?_getD,
    List.getElem?_set_self hlen, Option.getD_some]
  congr 1
  have h := growTo_getD_self tcs d.index
  simpa [List.getD_eq_getElem?_getD] using h

theorem applyToolCallDelta_getElem_ne (tcs : List ToolCallAccumulator)
    (d : ToolCallDelta) (j : Nat) (h : j ≠ d.index) :
    (applyToolCallDelta tcs d)[j]? = (growTo tcs d.index)[j]? := by
  simp [applyToolCallDelta, List.getElem?_set_ne (fun he => h he.symm)]

theorem applyToolCallDelta_getD_ne (tcs : List ToolCallAccumulator)
    (d : ToolCallDelta) (j : Nat) (h : j ≠ d.index) :
    (applyToolCallDelta tcs d).getD j {} = tcs.getD j {} := by
  rw [List.getD_eq_getElem?_getD, applyToolCallDelta_getElem_ne tcs d j h]
  rcases Nat.lt_or_ge j tcs.length with hj | hj
  · rw [growTo_getElem_lt tcs d.index j hj, ← List.getD_eq_getElem?_getD]
  · have hout : tcs.getD j {} = {} := by
      have : tcs[j]? = none := by
        simp [List.getElem?_eq_none_iff]
        omega
      simp [List.getD_eq_getElem?_getD, this]
    rcases Nat.lt_or_ge j (d.index + 1) with hj2 | hj2
    · rw [growTo_getElem_ge tcs d.index j hj hj2, hout]
      rfl
    · rw [growTo_getElem_out tcs d.index j hj hj2, hout]
      rfl

theorem mergeToolCallDelta_eq (tc : ToolCallAccumulator) (d : ToolCallDelta) :
    mergeToolCallDelta tc d =
      { id := d.id.getD tc.id,
        call_type := d.call_type.getD tc.call_type,
        name := tc.name ++ ((d.function.bind FunctionDelta.name).getD ""),
        arguments :=
          tc.arguments ++ ((d.function.bind FunctionDelta.arguments).getD "") } := by
  rcases d with ⟨i, id?, ct?, f?⟩
  rcases f? with _ | ⟨n?, a?⟩
  · rcases id? <;> rcases ct? <;>
      simp [mergeToolCallDelta, Option.bind, String.append_empty]
  · rcases id? <;> rcases ct? <;> rcases n? <;> rcases a? <;>
      simp [mergeToolCallDelta, Option.bind, String.append_empty]

theorem processChoice_tool_calls (acc : StreamAccumulator) (ch : StreamChoice) :
    (processChoice acc ch).tool_calls = applyChoiceToolCalls acc.tool_calls ch := by
  rcases ch with ⟨i, ⟨r, co, tc⟩, fr⟩
  rcases r <;> rcases co <;> rcases tc <;> rcases fr <;>
    simp only [processChoice, applyChoiceToolCalls, Option.getD_some,
      Option.getD_none, List.foldl_nil] <;>
    split <;> rfl

theorem foldl_processChoice_tool_calls (choices : List StreamChoice)
    (acc : StreamAccumulator) :
    (choices.foldl processChoice acc).tool_calls =
      choices.foldl applyChoiceToolCalls acc.tool_calls := by
  induction choices generalizing acc with
  | nil => rfl
  | cons ch rest ih =>
    rw [List.foldl_cons, List.foldl_cons, ih, processChoice_tool_calls]

theorem process_chunk_tool_calls (acc : StreamAccumulator) (c : StreamChunk) :
    (process_chunk acc c).tool_calls = applyChunkToolCalls acc.tool_calls c := by
  unfold process_chunk applyChunkToolCalls
  rw [foldl_processChoice_tool_calls]
  congr 1
  split <;> split <;> rfl

theorem foldl_process_chunk_tool_calls (chunks : List StreamChunk)
    (acc : StreamAccumulator) :
    (chunks.foldl process_chunk acc).tool_calls =
      chunks.foldl applyChunkToolCalls acc.tool_calls := by
  induction chunks generalizing acc with
  | nil => rfl
  | cons c rest ih =>
    rw [List.foldl_cons, List.foldl_cons, ih, process_chunk_tool_calls]

theorem applyToolCallDelta_gap (tcs : List ToolCallAccumulator)
    (d : ToolCallDelta) (j : Nat) (hne : d.index ≠ j)
    (hgap : tcs[j]? = none ∨ tcs[j]? = some {}) :
    (applyToolCallDelta tcs d)[j]? = none ∨
      (applyToolCallDelta tcs d)[j]? = some {} := by
  rw [applyToolCallDelta_getElem_ne tcs d j (fun h => hne h.symm)]
  rcases Nat.lt_or_ge j tcs.length with hj | hj
  · rw [growTo_getElem_lt _ _ _ hj]
    exact hgap
  · rcases Nat.lt_or_ge j (d.index + 1) with hj2 | hj2
    · right
      exact growTo_getElem_ge _ _ _ hj hj2
    · left
      exact growTo_getElem_out _ _ _ hj hj2

theorem foldl_delta_gap (ds : List ToolCallDelta) (tcs : List ToolCallAccumulator)
    (j : Nat) (hne : ∀ d ∈ ds, d.index ≠ j)
    (hgap : tcs[j]? = none ∨ tcs[j]? = some {}) :
    (ds.foldl applyToolCallDelta tcs)[j]? = none ∨
      (ds.foldl applyToolCallDelta tcs)[j]? = some {} := by
  induction ds generalizing tcs with
  | nil => exact hgap
  | cons d rest ih =>
    rw [List.foldl_cons]
    exact ih _ (fun x hx => hne x (List.mem_cons_of_mem d hx))
      (applyToolCallDelta_gap tcs d j (hne d (List.mem_cons_self d rest)) hgap)

theorem choice_gap (choices : List StreamChoice) (tcs : List ToolCallAccumulator)
    (j : Nat) (hne : ∀ ch ∈ choices, ∀ d ∈ ch.delta.tool_calls.getD [], d.index ≠ j)
    (hgap : tcs[j]? = none ∨ tcs[j]? = some {}) :
    (choices.foldl applyChoiceToolCalls tcs)[j]? = none ∨
      (choices.foldl applyChoiceToolCalls tcs)[j]? = some {} := by
  induction choices generalizing tcs with
  | nil => exact hgap
  | cons ch rest ih =>
    rw [List.foldl_cons]
    exact ih _ (fun x hx => hne x (List.mem_cons_of_mem ch hx))
      (foldl_delta_gap _ tcs j (hne ch (List.mem_cons_self ch rest)) hgap)

theorem chunk_gap (chunks : List StreamChunk) (tcs : List ToolCallAccumulator)
    (j : Nat)
    (hne : ∀ c ∈ chunks, ∀ ch ∈ c.choices, ∀ d ∈ ch.delta.tool_calls.getD [],
      d.index ≠ j)
    (hgap : tcs[j]? = none ∨ tcs[j]? = some {}) :
    (chunks.foldl applyChunkToolCalls tcs)[j]? = none ∨
      (chunks.foldl applyChunkToolCalls tcs)[j]? = some {} := by
  induction chunks generalizing tcs with
  | nil => exact hgap
  | cons c rest ih =>
    rw [List.foldl_cons]
    exact ih _ (fun x hx => hne x (List.mem_cons_of_mem c hx))
      (choice_gap _ tcs j (hne c (List.mem_cons_self c rest)) hgap)

theorem foldl_delta_length_mono (ds : List ToolCallDelta)
    (tcs : List ToolCallAccumulator) :
    tcs.length ≤ (ds.foldl applyToolCallDelta tcs).length := by
  induction ds generalizing tcs with
  | nil => exact Nat.le_refl _
  | cons d rest ih =>
    rw [List.foldl_cons]
    refine Nat.le_trans ?_ (ih _)
    rw [applyToolCallDelta_length]
    omega

theorem choice_length_mono (choices : List StreamChoice)
    (tcs : List ToolCallAccumulator) :
    tcs.length ≤ (choices.foldl applyChoiceToolCalls tcs).length := by
  induction choices generalizing tcs with
  | nil => exact Nat.le_refl _
  | cons ch rest ih =>
    rw [List.foldl_cons]
    exact Nat.le_trans (foldl_delta_length_mono _ tcs) (ih _)

theorem chunk_length_mono (chunks : List StreamChunk)
    (tcs : List ToolCallAccumulator) :
    tcs.length ≤ (chunks.foldl applyChunkToolCalls tcs).length := by
  induction chunks generalizing tcs with
  | nil => exact Nat.le_refl _
  | cons c rest ih =>
    rw [List.foldl_cons]
    exact Nat.le_trans (choice_length_mono _ tcs) (ih _)

theorem foldl_delta_length_ge (ds : List ToolCallDelta)
    (tcs : List ToolCallAccumulator) (d : ToolCallDelta) (hd : d ∈ ds) :
    d.index + 1 ≤ (ds.foldl applyToolCallDelta tcs).length := by
  induction ds generalizing tcs with
  | nil => cases hd
  | cons a rest ih =>
    rw [List.foldl_cons]
    rcases List.mem_cons.mp hd with h | h
    · subst h
      refine Nat.le_trans ?_ (foldl_delta_length_mono rest _)
      rw [applyToolCallDelta_length]
      omega
    · exact ih _ h

theorem choice_length_ge (choices : List StreamChoice)
    (tcs : List ToolCallAccumulator) (ch : StreamChoice) (d : ToolCallDelta)
    (hch : ch ∈ choices) (hd : d ∈ ch.delta.tool_calls.getD []) :
    d.index + 1 ≤ (choices.foldl applyChoiceToolCalls tcs).length := by
  induction choices generalizing tcs with
  | nil => cases hch
  | cons a rest ih =>
    rw [List.foldl_cons]
    rcases List.mem_cons.mp hch with h | h
    · subst h
      exact Nat.le_trans (foldl_delta_length_ge _ tcs d hd)
        (choice_length_mono rest _)
    · exact ih _ h

theorem chunk_length_ge (chunks : List StreamChunk)
    (tcs : List ToolCallAccumulator) (c : StreamChunk) (ch : StreamChoice)
    (d : ToolCallDelta) (hc : c ∈ chunks) (hch : ch ∈ c.choices)
    (hd : d ∈ ch.delta.tool_calls.getD []) :
    d.index + 1 ≤ (chunks.foldl applyChunkToolCalls tcs).length := by
  induction chunks generalizing tcs with
  | nil => cases hc
  | cons a rest ih =>
    rw [List.foldl_cons]
    rcases List.mem_cons.mp hc with h | h
    · subst h
      exact Nat.le_trans (choice_length_ge _ tcs ch d hch hd)
        (chunk_length_mono rest _)
    · exact ih _ h

theorem minByFirst_cons_isSome (f : ApiKey → Nat) (k : ApiKey)
    (rest : List ApiKey) : (minByFirst f (k :: rest)).isSome = true := by
  simp only [minByFirst]
  rcases minByFirst f rest with _ | m
  · rfl
  · by_cases h : f m < f k <;> simp [h]

theorem minByFirst_spec (f : ApiKey → Nat) (l : List ApiKey) (hl : l ≠ []) :
    ∃ m, minByFirst f l = some m ∧ m ∈ l ∧ ∀ x ∈ l, f m ≤ f x := by
  induction l with
  | nil => cases hl rfl
  | cons k rest ih =>
    rcases hrest : minByFirst f rest with _ | m
    · have hrnil : rest = [] := by
        cases rest with
        | nil => rfl
        | cons a t =>
          have hs := minByFirst_cons_isSome f a t
          rw [hrest] at hs
          cases hs
      subst hrnil
      exact ⟨k, by simp [minByFirst], List.mem_singleton.mpr rfl, by simp⟩
    · have hrne : rest ≠ [] := by
        intro h
        subst h
        simp [minByFirst] at hrest
      obtain ⟨m2, hm2, hmem2, hall2⟩ := ih hrne
      rw [hrest] at hm2
      cases hm2
      by_cases hlt : f m < f k
      · refine ⟨m, ?_, List.mem_cons_of_mem k hmem2, ?_⟩
        · simp [minByFirst, hrest, hlt]
        · intro x hx
          rcases List.mem_cons.mp hx with h | h
          · subst h
            omega
          · exact hall2 x h
      · refine ⟨k, ?_, List.mem_cons_self k rest, ?_⟩
        · simp [minByFirst, hrest, hlt]
        · intro x hx
          rcases List.mem_cons.mp hx with h | h
          · subst h
            exact Nat.le_refl _
          · exact Nat.le_trans (by omega) (hall2 x h)

theorem get_soonest_available_spec (keys : List ApiKey) (now : Nat)
    (h : keys ≠ []) :
    ∃ m, get_soonest_available keys now = some m ∧ m ∈ keys ∧
      ∀ x ∈ keys, (m.rate_limit_remaining now).getD 0 ≤
        (x.rate_limit_remaining now).getD 0 :=
  minByFirst_spec _ keys h

theorem rrFind_some_spec (keys : List ApiKey) (now : Nat) (hne : keys ≠ []) :
    ∀ fuel cur k c, rrFind keys now cur fuel = some (k, c) →
      k.is_rate_limited now = false ∧ k ∈ keys := by
  intro fuel
  induction fuel with
  | zero => intro cur k c h; cases h
  | succ n ih =>
    intro cur k c h
    simp only [rrFind] at h
    by_cases hk : (keys.getD (cur % keys.length) default).is_rate_limited now = true
    · rw [if_pos hk] at h
      exact ih (cur + 1) k c h
    · rw [if_neg hk] at h
      have hk2 : k = keys.getD (cur % keys.length) default := by
        cases h
        rfl
      have hlen : 0 < keys.length := List.length_pos.mpr hne
      have hidx : cur % keys.length < keys.length := Nat.mod_lt _ hlen
      refine ⟨by subst hk2; exact Bool.eq_false_iff.mpr hk, ?_⟩
      rw [hk2, List.getD_eq_getElem keys default hidx]
      exact List.getElem_mem hidx

theorem rrFind_none_spec (keys : List ApiKey) (now : Nat) :
    ∀ fuel cur, rrFind keys now cur fuel = none →
      ∀ i, i < fuel →
        (keys.getD ((cur + i) % keys.length) default).is_rate_limited now = true := by
  intro fuel
  induction fuel with
  | zero => intro cur _ i hi; omega
  | succ n ih =>
    intro cur h i hi
    simp only [rrFind] at h
    by_cases hk : (keys.getD (cur % keys.length) default).is_rate_limited now = true
    · rw [if_pos hk] at h
      rcases i with _ | j
      · simpa using hk
      · have := ih (cur + 1) h j (by omega)
        have harith : cur + 1 + j = cur + (j + 1) := by omega
        rwa [harith] at this
    · rw [if_neg hk] at h
      cases h

theorem rrFind_none_of_all (keys : List ApiKey) (now : Nat) (hne : keys ≠ [])
    (hall : ∀ k ∈ keys, k.is_rate_limited now = true) :
    ∀ fuel cur, rrFind keys now cur fuel = none := by
  intro fuel
  induction fuel with
  | zero => intro cur; rfl
  | succ n ih =>
    intro cur
    have hlen : 0 < keys.length := List.length_pos.mpr hne
    have hidx : cur % keys.length < keys.length := Nat.mod_lt _ hlen
    have hk : (keys.getD (cur % keys.length) default).is_rate_limited now = true := by
      rw [List.getD_eq_getElem keys default hidx]
      exact hall _ (List.getElem_mem hidx)
    simp only [rrFind]
    rw [if_pos hk]
    exact ih (cur + 1)

theorem rr_index_inj (len cur : Nat) :
    ∀ i j, i < len → j < len →
      (cur + i) % len = (cur + j) % len → i = j := by
  intro i j hi hj h
  have h2 : i ≡ j [MOD len] := Nat.ModEq.add_left_cancel' cur h
  have h3 : i % len = j % len := h2
  rwa [Nat.mod_eq_of_lt hi, Nat.mod_eq_of_lt hj] at h3

theorem rr_index_surj (len cur : Nat) (hlen : 0 < len) :
    ∀ jdx, jdx < len → ∃ i, i < len ∧ (cur + i) % len = jdx := by
  intro jdx hj
  have hinj : Function.Injective
      (fun i : Fin len => (⟨(cur + i) % len, Nat.mod_lt _ hlen⟩ : Fin len)) := by
    intro a b hab
    exact Fin.ext (rr_index_inj len cur a b a.isLt b.isLt
      (congrArg Fin.val hab))
  obtain ⟨i, hi⟩ := Finite.injective_iff_surjective.mp hinj ⟨jdx, hj⟩
  exact ⟨i, i.isLt, congrArg Fin.val hi⟩

theorem get_key_uncooled (p : KeyPool) (now seed : Nat) (hne : p.keys ≠ [])
    (hex : ∃ k ∈ p.keys, k.is_rate_limited now = false) :
    ∃ k, (p.get_key now seed).1 = some k ∧ k.is_rate_limited now = false := by
  have hlen : 0 < p.keys.length := List.length_pos.mpr hne
  have hemp : p.keys.isEmpty = false := by simp [List.isEmpty_iff, hne]
  unfold KeyPool.get_key
  rw [if_neg (by simp [hemp])]
  rcases p.strategy with _ | _ | _
  · -- round robin
    unfold get_round_robin
    rcases hrr : rrFind p.keys now p.current_index p.keys.length with _ | ⟨k, c⟩
    · exfalso
      obtain ⟨k, hk, hkfree⟩ := hex
      obtain ⟨j, hjlt, hjeq⟩ := List.mem_iff_getElem.mp hk
      obtain ⟨i, hilt, hieq⟩ := rr_index_surj p.keys.length p.current_index hlen j hjlt
      have := rrFind_none_spec p.keys now p.keys.length p.current_index hrr i hilt
      rw [hieq, List.getD_eq_getElem p.keys default hjlt, hjeq, hkfree] at this
      cases this
    · obtain ⟨hfree, _⟩ := rrFind_some_spec p.keys now hne _ _ _ _ hrr
      exact ⟨k, rfl, hfree⟩
  · -- LRU
    unfold get_lru
    have hfne : p.keys.filter (fun k => ! k.is_rate_limited now) ≠ [] := by
      obtain ⟨k, hk, hkfree⟩ := hex
      intro hnil
      have : k ∈ p.keys.filter (fun k => ! k.is_rate_limited now) :=
        List.mem_filter.mpr ⟨hk, by simp [hkfree]⟩
      rw [hnil] at this
      cases this
    obtain ⟨m, hm, hmem, _⟩ := minByFirst_spec ApiKey.last_used _ hfne
    rw [hm]
    obtain ⟨_, hmfree⟩ := List.mem_filter.mp hmem
    exact ⟨m, rfl, by simpa using hmfree⟩
  · -- random
    unfold get_random
    have hfne : p.keys.filter (fun k => ! k.is_rate_limited now) ≠ [] := by
      obtain ⟨k, hk, hkfree⟩ := hex
      intro hnil
      have : k ∈ p.keys.filter (fun k => ! k.is_rate_limited now) :=
        List.mem_filter.mpr ⟨hk, by simp [hkfree]⟩
      rw [hnil] at this
      cases this
    rw [if_neg (by simp [List.isEmpty_iff, hfne])]
    have hflen : 0 < (p.keys.filter (fun k => ! k.is_rate_limited now)).length :=
      List.length_pos.mpr hfne
    have hidx : seed % (p.keys.filter (fun k => ! k.is_rate_limited now)).length <
        (p.keys.filter (fun k => ! k.is_rate_limited now)).length :=
      Nat.mod_lt _ hflen
    rw [List.getD_eq_getElem _ default hidx]
    refine ⟨_, rfl, ?_⟩
    have hmem := List.getElem_mem hidx
    obtain ⟨_, hfree⟩ := List.mem_filter.mp hmem
    simpa using hfree

theorem get_key_all_cooled (p : KeyPool) (now seed : Nat) (hne : p.keys ≠ [])
    (hall : ∀ k ∈ p.keys, k.is_rate_limited now = true) :
    (p.get_key now seed).1 = get_soonest_available p.keys now := by
  have hemp : p.keys.isEmpty = false := by simp [List.isEmpty_iff, hne]
  have hfnil : p.keys.filter (fun k => ! k.is_rate_limited now) = [] :=
    List.filter_eq_nil_iff.mpr (fun k hk => by simp [hall k hk])
  unfold KeyPool.get_key
  rw [if_neg (by simp [hemp])]
  rcases p.strategy with _ | _ | _
  · unfold get_round_robin
    rw [rrFind_none_of_all p.keys now hne hall p.keys.length p.current_index]
  · unfold get_lru
    rw [hfnil]
    rfl
  · unfold get_random
    rw [hfnil]
    rfl

theorem get_key_rr_free (p : KeyPool) (now : Nat)
    (hs : p.strategy = RotationStrategy.RoundRobin) (hne : p.keys ≠ [])
    (hfree : ∀ k ∈ p.keys, k.is_rate_limited now = false) :
    p.get_key now 0 =
      (some (p.keys.getD (p.current_index % p.keys.length) default),
       { p with current_index := p.current_index + 1 }) := by
  have hlen : 0 < p.keys.length := List.length_pos.mpr hne
  have hemp : p.keys.isEmpty = false := by simp [List.isEmpty_iff, hne]
  have hidx : p.current_index % p.keys.length < p.keys.length :=
    Nat.mod_lt _ hlen
  have hk : (p.keys.getD (p.current_index % p.keys.length) default).is_rate_limited now = false := by
    rw [List.getD_eq_getElem p.keys default hidx]
    exact hfree _ (List.getElem_mem hidx)
  unfold KeyPool.get_key
  rw [if_neg (by simp [hemp]), hs]
  unfold get_round_robin
  obtain ⟨f, hf⟩ : ∃ f, p.keys.length = f + 1 := ⟨p.keys.length - 1, by omega⟩
  rw [hf]
  simp only [rrFind]
  rw [← hf, if_neg (by simp [← List.getD_eq_getElem?_getD, hk])]
  rw [← hs]

theorem selectRR_free (p : KeyPool) (now : Nat)
    (hs : p.strategy = RotationStrategy.RoundRobin) (hne : p.keys ≠ [])
    (hfree : ∀ k ∈ p.keys, k.is_rate_limited now = false) :
    ∀ m cur, (selectRR { p with current_index := cur } now m).1 =
      (List.range m).map
        (fun i => some (p.keys.getD ((cur + i) % p.keys.length) default)) := by
  intro m
  induction m with
  | zero => intro cur; rfl
  | succ n ih =>
    intro cur
    have hstep := get_key_rr_free { p with current_index := cur } now hs hne hfree
    simp only [selectRR]
    rw [hstep]
    simp only [List.range_succ_eq_map, List.map_cons, List.map_map]
    congr 1
    rw [ih (cur + 1)]
    refine List.map_congr_left ?_
    intro i _
    have harith : cur + 1 + i = cur + (i + 1) := by omega
    simp [Function.comp, harith]

theorem update_from_response_retry_after (info : ProviderRateLimit)
    (headers : List (String × String)) (rk rsk : Option String) (t : Nat) :
    (update_from_response info headers rk rsk t).retry_after = info.retry_after := by
  simp only [update_from_response]
  repeat' split
  all_goals rfl

theorem update_from_response_reset_at (info : ProviderRateLimit)
    (headers : List (String × String)) (rk rsk : Option String) (t : Nat) :
    (update_from_response info headers rk rsk t).reset_at = info.reset_at ∨
      ∃ x, (update_from_response info headers rk rsk t).reset_at = some x := by
  simp only [update_from_response]
  repeat' split
  all_goals simp

theorem update_from_response_requests (info : ProviderRateLimit)
    (headers : List (String × String)) (rk rsk : Option String) (t : Nat) :
    (update_from_response info headers rk rsk t).requests_remaining =
        info.requests_remaining ∨
      ∃ s x, headerGet headers (rk.getD "x-ratelimit-remaining-requests") = some s ∧
        parseNat? s = some x ∧
        (update_from_response info headers rk rsk t).requests_remaining = some x := by
  simp only [update_from_response]
  rcases hh : headerGet headers (rk.getD "x-ratelimit-remaining-requests") with _ | s
  · left
    simp only [hh]
    repeat' split
    all_goals rfl
  · rcases hp : parseNat? s with _ | x
    · left
      simp only [hh, hp]
      repeat' split
      all_goals rfl
    · right
      refine ⟨s, x, rfl, hp, ?_⟩
      simp only [hh, hp]
      repeat' split
      all_goals rfl

theorem update_from_rate_limit_error_fields (info : ProviderRateLimit)
    (headers : List (String × String)) (rk : Option String) (t : Nat) :
    (update_from_rate_limit_error info headers rk t).1.retry_after =
      some (update_from_rate_limit_error info headers rk t).2 ∧
    (update_from_rate_limit_error info headers rk t).1.reset_at =
      some (t + (update_from_rate_limit_error info headers rk t).2) ∧
    (update_from_rate_limit_error info headers rk t).1.requests_remaining =
      info.requests_remaining :=
  ⟨rfl, rfl, rfl⟩

theorem should_wait_isSome_iff (info : ProviderRateLimit) (now : Nat)
    (hinv : info.retry_after.isSome = true → info.reset_at.isSome = true) :
    (should_wait info now).isSome = true ↔
      ((info.requests_remaining = some 0 ∧
          ∃ r, info.reset_at = some r ∧ now < r) ∨
       (info.retry_after.isSome = true ∧
          ∃ r, info.reset_at = some r ∧ now < r)) := by
  rcases info with ⟨rr, tr, ra, rta⟩
  simp only [Option.isSome] at hinv ⊢
  rcases ra with _ | r
  · rcases rta with _ | w
    · by_cases hrr : rr = some 0 <;> simp [should_wait, hrr]
    · exact absurd (hinv rfl) (by simp)
  · rcases rta with _ | w <;>
      by_cases hrr : rr = some 0 <;> by_cases hlt : now < r <;>
        simp [should_wait, hrr, hlt]

theorem should_wait_pos (info : ProviderRateLimit) (now w : Nat)
    (hinv : info.retry_after.isSome = true → info.reset_at.isSome = true)
    (h : should_wait info now = some w) : 0 < w := by
  rcases info with ⟨rr, tr, ra, rta⟩
  simp only [Option.isSome] at hinv
  rcases ra with _ | r
  · rcases rta with _ | w2
    · by_cases hrr : rr = some 0 <;> simp [should_wait, hrr] at h
    · exact absurd (hinv rfl) (by simp)
  · rcases rta with _ | w2 <;>
      by_cases hrr : rr = some 0 <;> by_cases hlt : now < r <;>
        simp [should_wait, hrr, hlt] at h <;> omega

theorem should_wait_none_of (info : ProviderRateLimit) (now : Nat)
    (h1 : info.requests_remaining ≠ some 0) (h2 : info.retry_after = none) :
    should_wait info now = none := by
  unfold should_wait
  rw [if_neg h1, h2]

theorem should_wait_isSome_of (info : ProviderRateLimit) (now r : Nat)
    (hra : info.reset_at = some r) (hrta : info.retry_after.isSome = true)
    (h : now < r) : (should_wait info now).isSome = true := by
  rcases Option.isSome_iff_exists.mp hrta with ⟨w, hw⟩
  unfold should_wait
  rw [hra, hw]
  by_cases h0 : info.requests_remaining = some 0 <;> simp [h0, h]

theorem trackerUpdateFromResponse_retry_after (st : Option ProviderRateLimit)
    (headers : List (String × String)) (rk rsk : Option String) (t : Nat) :
    trackerRetryAfter (trackerUpdateFromResponse st headers rk rsk t) =
      trackerRetryAfter st := by
  simp [trackerRetryAfter, trackerUpdateFromResponse,
    update_from_response_retry_after]

theorem post_with_retry_go_no_recording {β : Type}
    (parseBody : String → Option β) (provider : String) (max_retries now : Nat) :
    ∀ (trace : List AttemptOutcome) (tracker : Option ProviderRateLimit)
      (retries : Nat) (e : Except LlmaoError β) (t : Option ProviderRateLimit),
      post_with_retry_go parseBody provider max_retries now tracker retries
        trace = some (e, t) →
      trackerRetryAfter t = trackerRetryAfter tracker := by
  intro trace
  induction trace with
  | nil => intro tracker retries e t h; cases h
  | cons a rest ih =>
    intro tracker retries e t h
    rcases a with r | ⟨ct, err⟩
    · simp only [post_with_retry_go] at h
      have hpres := trackerUpdateFromResponse_retry_after tracker r.headers
        none none now
      split at h
      · have ht : trackerUpdateFromResponse tracker r.headers none none now = t :=
          congrArg Prod.snd (Option.some.inj h)
        rw [← ht]
        exact hpres
      · split at h
        · split at h
          · have ht : trackerUpdateFromResponse tracker r.headers none none now = t :=
              congrArg Prod.snd (Option.some.inj h)
            rw [← ht]
            exact hpres
          · exact (ih _ _ _ _ h).trans hpres
        · split at h
          · have ht : trackerUpdateFromResponse tracker r.headers none none now = t :=
              congrArg Prod.snd (Option.some.inj h)
            rw [← ht]
            exact hpres
          · have ht : trackerUpdateFromResponse tracker r.headers none none now = t :=
              congrArg Prod.snd (Option.some.inj h)
            rw [← ht]
            exact hpres
    · simp only [post_with_retry_go] at h
      split at h
      · have ht : tracker = t := congrArg Prod.snd (Option.some.inj h)
        rw [← ht]
      · split at h
        · exact ih _ _ _ _ h
        · have ht : tracker = t := congrArg Prod.snd (Option.some.inj h)
          rw [← ht]

theorem post_with_retry_go_budget {β : Type}
    (parseBody : String → Option β) (provider : String) (max_retries now : Nat) :
    ∀ (trace : List AttemptOutcome) (tracker : Option ProviderRateLimit)
      (retries : Nat),
      (∀ a ∈ trace, isRateLimitedAttempt a = true) →
      trace ≠ [] →
      max_retries < retries + trace.length →
      ∃ t, post_with_retry_go parseBody provider max_retries now tracker
        retries trace =
          some (Except.error (.RateLimited provider none), t) := by
  intro trace
  induction trace with
  | nil => intro _ _ _ hne _; cases hne rfl
  | cons a rest ih =>
    intro tracker retries hall _ hlen
    have ha := hall a (List.mem_cons_self a rest)
    rcases a with r | ⟨ct, err⟩
    · simp only [isRateLimitedAttempt, Bool.and_eq_true, Bool.not_eq_true',
        decide_eq_false_iff_not] at ha
      obtain ⟨hsucc, hrl⟩ := ha
      by_cases hbud : retries + 1 > max_retries
      · refine ⟨trackerUpdateFromResponse tracker r.headers none none now, ?_⟩
        simp only [post_with_retry_go]
        rw [if_neg hsucc, if_pos hrl, if_pos hbud]
      · have hrne : rest ≠ [] := by
          intro hnil
          rw [hnil] at hlen
          simp at hlen
          omega
        obtain ⟨t, ht⟩ := ih (trackerUpdateFromResponse tracker r.headers
          none none now) (retries + 1)
          (fun x hx => hall x (List.mem_cons_of_mem _ hx)) hrne
          (by simp at hlen ⊢; omega)
        refine ⟨t, ?_⟩
        simp only [post_with_retry_go]
        rw [if_neg hsucc, if_pos hrl, if_neg hbud]
        exact ht
    · simp [isRateLimitedAttempt] at ha

theorem completion_loop_all_rate_limited {β : Type} (provider : String) :
    ∀ (results : List (Except LlmaoError β)) (last : Option LlmaoError),
      results ≠ [] →
      (∀ r ∈ results, ∃ pv ra, r = Except.error (.RateLimited pv ra)) →
      ∃ ra, completion_loop provider results last =
        Except.error (.RateLimited provider ra) := by
  intro results
  induction results with
  | nil => intro _ hne _; cases hne rfl
  | cons r rest ih =>
    intro last _ hall
    obtain ⟨pv, ra, hr⟩ := hall r (List.mem_cons_self r rest)
    subst hr
    rcases rest with _ | ⟨r2, rest2⟩
    · exact ⟨ra, rfl⟩
    · obtain ⟨ra2, hra2⟩ := ih (some (.RateLimited provider ra))
        (by simp) (fun x hx => hall x (List.mem_cons_of_mem _ hx))
      exact ⟨ra2, hra2⟩

/-! ## Claims -/

/-- C8: duration-string parsing maps "30s" to 30 seconds, "5m" to 300
seconds, "1h" to 3600 seconds, "1m30s" to 90 seconds and "500ms" to 500
milliseconds (durations are in milliseconds in this embedding). -/
theorem C8_duration_strings :
    parse_duration_string "30s" = some (30 * 1000) ∧
    parse_duration_string "5m" = some (300 * 1000) ∧
    parse_duration_string "1h" = some (3600 * 1000) ∧
    parse_duration_string "1m30s" = some (90 * 1000) ∧
    parse_duration_string "500ms" = some 500 := by
  refine ⟨by decide, by decide, by decide, by decide, by decide⟩

/-- C2 fails as stated: the source checks only the segment count, never
that segments are non-empty, so inputs with empty segments parse
successfully. -/
theorem C2_route_parse_counterexample :
    ModelRoute.parse "openai//x" =
      Except.ok { provider := "openai", model := "", variant := some "x" } ∧
    ModelRoute.parse "openai/" =
      Except.ok { provider := "openai", model := "", variant := none } := by
  exact ⟨by rfl, by rfl⟩

/-- C2 (amended): route parsing splits on '/' into exactly 2 or 3
segments (which may be empty — non-emptiness is not checked): 2 segments
yield {provider, model}, 3 yield {provider, model, variant}; any other
segment count fails as a configuration error whose message names the
offending string and the two accepted shapes. -/
theorem C2_route_parse (s : String) :
    (∀ p m, splitOnChar s '/' = [p, m] →
      ModelRoute.parse s = Except.ok { provider := p, model := m, variant := none }) ∧
    (∀ p m v, splitOnChar s '/' = [p, m, v] →
      ModelRoute.parse s =
        Except.ok { provider := p, model := m, variant := some v }) ∧
    ((splitOnChar s '/').length ≠ 2 → (splitOnChar s '/').length ≠ 3 →
      ModelRoute.parse s = Except.error (LlmaoError.Config
        ("Invalid model format '" ++ s ++
          "'. Expected 'provider/model' or 'provider/model/variant'"))) := by
  refine ⟨fun p m h => ?_, fun p m v h => ?_, fun h2 h3 => ?_⟩
  · simp [ModelRoute.parse, h]
  · simp [ModelRoute.parse, h]
  · simp [ModelRoute.parse, h2, h3]

theorem C2_route_parse_witness :
    (splitOnChar "openai/gpt-4" '/' = ["openai", "gpt-4"] ∧
      ModelRoute.parse "openai/gpt-4" =
        Except.ok { provider := "openai", model := "gpt-4", variant := none }) ∧
    ((splitOnChar "bad" '/').length ≠ 2 ∧ (splitOnChar "bad" '/').length ≠ 3 ∧
      ModelRoute.parse "bad" = Except.error (LlmaoError.Config
        ("Invalid model format '" ++ "bad" ++
          "'. Expected 'provider/model' or 'provider/model/variant'"))) :=
  ⟨⟨by decide, (C2_route_parse "openai/gpt-4").1 "openai" "gpt-4" (by decide)⟩,
   ⟨by decide, by decide, (C2_route_parse "bad").2.2 (by decide) (by decide)⟩⟩

/-- C1 fails as stated: a second delta for the same index overwrites the
previously set id and type (last write wins, not first), and the function
name is appended like argument text rather than set once.  Two deltas at
index 0 — the first supplying id "call_a", type "function", name "f"; the
second id "call_b", type "tool", name "oo" — leave id "call_b", type
"tool" and name "foo", not the first-delta values. -/
theorem C1_merge_counterexample :
    (process_chunk (process_chunk {} (toolChunk exToolDelta1))
        (toolChunk exToolDelta2)).tool_calls =
      [{ id := "call_b", call_type := "tool", name := "foo", arguments := "xy" }] ∧
    ("call_b" : String) ≠ "call_a" ∧ ("tool" : String) ≠ "function" ∧
    ("foo" : String) ≠ "f" := by
  exact ⟨by decide, by decide, by decide, by decide⟩

/-- C1 (amended): merging a tool-call delta at index i assigns the
identity fields id and type from every delta that supplies them (so the
last supplier wins), appends the function name and the argument text
cumulatively in arrival order, leaves every other index unchanged, and
grows the index space to max(length, i+1). -/
theorem C1_tool_call_merge (tcs : List ToolCallAccumulator) (d : ToolCallDelta)
    (j : Nat) (hj : j ≠ d.index) :
    (applyToolCallDelta tcs d).getD d.index {} =
      { id := d.id.getD ((tcs.getD d.index {}).id),
        call_type := d.call_type.getD ((tcs.getD d.index {}).call_type),
        name := (tcs.getD d.index {}).name ++
          ((d.function.bind FunctionDelta.name).getD ""),
        arguments := (tcs.getD d.index {}).arguments ++
          ((d.function.bind FunctionDelta.arguments).getD "") } ∧
    (applyToolCallDelta tcs d).getD j {} = tcs.getD j {} ∧
    (applyToolCallDelta tcs d).length = max tcs.length (d.index + 1) := by
  refine ⟨?_, applyToolCallDelta_getD_ne tcs d j hj,
    applyToolCallDelta_length tcs d⟩
  rw [applyToolCallDelta_getD_self, mergeToolCallDelta_eq]

/-- C9: folding the two-chunk stream (chunk 1 role assistant, content
"Hello"; chunk 2 content " World", finish reason stop) through
`process_chunk` and `into_message` yields a message with role
"assistant" and plain-text content "Hello World", the accumulator's
finish reason being stop; and for every accumulator, finalization turns
an empty tool-call set into no tool calls, defaults a missing role to
"assistant", and wraps the accumulated content as plain text. -/
theorem C9_stream_fold (acc : StreamAccumulator) :
    into_message (process_chunk (process_chunk {} exChunk1) exChunk2) =
      { role := "assistant", content := MessageContent.Text "Hello World" } ∧
    (process_chunk (process_chunk {} exChunk1) exChunk2).finish_reason =
      some "stop" ∧
    (acc.tool_calls = [] → (into_message acc).tool_calls = none) ∧
    (acc.role = none → (into_message acc).role = "assistant") ∧
    (into_message acc).content = MessageContent.Text acc.content := by
  refine ⟨by rfl, by rfl, fun h => ?_, fun h => ?_, ?_⟩
  · simp [into_message, h]
  · simp [into_message, h]
  · simp [into_message]

theorem C9_stream_fold_witness :
    (({} : StreamAccumulator).tool_calls = [] ∧
      (into_message {}).tool_calls = none) ∧
    (({} : StreamAccumulator).role = none ∧
      (into_message {}).role = "assistant") :=
  ⟨⟨rfl, (C9_stream_fold {}).2.2.1 rfl⟩,
   ⟨rfl, (C9_stream_fold {}).2.2.2.1 rfl⟩⟩

/-- C10: when tool-call deltas arrive with sparse indices the
accumulator pads with default all-empty entries, and `into_message`
keeps every never-targeted gap entry as a tool call with empty id, type,
function name and arguments: if no delta of the stream targets index j
but some delta targets an index above j, the final message still carries
a tool call at position j, all of whose fields are empty. -/
theorem C10_sparse_indices (chunks : List StreamChunk) (j : Nat)
    (hne : ∀ c ∈ chunks, ∀ ch ∈ c.choices,
      ∀ d ∈ ch.delta.tool_calls.getD [], d.index ≠ j)
    (hex : ∃ c ∈ chunks, ∃ ch ∈ c.choices,
      ∃ d ∈ ch.delta.tool_calls.getD [], j < d.index) :
    ∃ l, (into_message (chunks.foldl process_chunk {})).tool_calls = some l ∧
      j < l.length ∧
      l[j]? = some { id := "", call_type := "", function := { name := "", arguments := "" } } := by
  obtain ⟨c, hc, ch, hch, d, hd, hlt⟩ := hex
  have htc : (chunks.foldl process_chunk {}).tool_calls =
      chunks.foldl applyChunkToolCalls [] :=
    foldl_process_chunk_tool_calls chunks {}
  have hlen : j < (chunks.foldl applyChunkToolCalls
      ([] : List ToolCallAccumulator)).length := by
    have := chunk_length_ge chunks [] c ch d hc hch hd
    omega
  have hgap : (chunks.foldl applyChunkToolCalls
      ([] : List ToolCallAccumulator))[j]? = some {} := by
    rcases chunk_gap chunks [] j hne (Or.inl rfl) with h | h
    · rw [List.getElem?_eq_none_iff] at h
      omega
    · exact h
  refine ⟨(chunks.foldl applyChunkToolCalls []).map
      (fun tc =>
        { id := tc.id, call_type := tc.call_type,
          function := { name := tc.name, arguments := tc.arguments } }),
    ?_, ?_, ?_⟩
  · rw [into_message, htc]
    have hemp : (chunks.foldl applyChunkToolCalls
        ([] : List ToolCallAccumulator)).isEmpty = false := by
      rw [List.isEmpty_eq_false_iff_exists_mem]
      have hj := List.getElem?_eq_some_iff.mp hgap
      obtain ⟨hlt2, heq⟩ := hj
      exact ⟨_, List.getElem_mem hlt2⟩
    simp [hemp]
  · simpa using hlen
  · rw [List.getElem?_map, hgap]
    rfl

theorem C10_sparse_indices_witness :
    (∀ c ∈ [exSparseChunk], ∀ ch ∈ c.choices,
      ∀ d ∈ ch.delta.tool_calls.getD [], d.index ≠ 1) ∧
    (∃ c ∈ [exSparseChunk], ∃ ch ∈ c.choices,
      ∃ d ∈ ch.delta.tool_calls.getD [], 1 < d.index) ∧
    (∃ l, (into_message ([exSparseChunk].foldl process_chunk {})).tool_calls =
        some l ∧ 1 < l.length ∧
      l[1]? = some { id := "", call_type := "", function := { name := "", arguments := "" } }) :=
  ⟨by decide, by decide,
   C10_sparse_indices [exSparseChunk] 1 (by decide) (by decide)⟩

theorem C1_tool_call_merge_witness :
    (1 : Nat) ≠ exToolDelta2.index ∧
    ((applyToolCallDelta [] exToolDelta2).getD exToolDelta2.index {} =
      { id := exToolDelta2.id.getD (([] : List ToolCallAccumulator).getD exToolDelta2.index {}).id,
        call_type := exToolDelta2.call_type.getD
          (([] : List ToolCallAccumulator).getD exToolDelta2.index {}).call_type,
        name := (([] : List ToolCallAccumulator).getD exToolDelta2.index {}).name ++
          ((exToolDelta2.function.bind FunctionDelta.name).getD ""),
        arguments := (([] : List ToolCallAccumulator).getD exToolDelta2.index {}).arguments ++
          ((exToolDelta2.function.bind FunctionDelta.arguments).getD "") } ∧
     (applyToolCallDelta [] exToolDelta2).getD 1 {} =
       ([] : List ToolCallAccumulator).getD 1 {} ∧
     (applyToolCallDelta [] exToolDelta2).length =
       max ([] : List ToolCallAccumulator).length (exToolDelta2.index + 1)) :=
  ⟨by decide, C1_tool_call_merge [] exToolDelta2 1 (by decide)⟩

/-- C7: `record_rate_limit_error` takes the retry-after header as plain
seconds, else as a compound duration string, defaulting to 60 seconds
when the header is absent or unparseable; it stores the chosen duration
as both the last known retry-after and the new reset deadline (now +
duration) and returns it; in particular an HTTP 429 without a
retry-after header (empty header map) yields a 60-second cooldown. -/
theorem C7_record_rate_limit_error (info : ProviderRateLimit)
    (headers : List (String × String)) (retry_after_header : Option String)
    (now : Nat) :
    (update_from_rate_limit_error info headers retry_after_header now).1.retry_after =
      some (update_from_rate_limit_error info headers retry_after_header now).2 ∧
    (update_from_rate_limit_error info headers retry_after_header now).1.reset_at =
      some (now + (update_from_rate_limit_error info headers retry_after_header now).2) ∧
    (headerGet headers (retry_after_header.getD "retry-after") = none →
      (update_from_rate_limit_error info headers retry_after_header now).2 = 60000) ∧
    (∀ s, headerGet headers (retry_after_header.getD "retry-after") = some s →
      parseNat? s = none → parse_duration_string s = none →
      (update_from_rate_limit_error info headers retry_after_header now).2 = 60000) ∧
    (∀ s k, headerGet headers (retry_after_header.getD "retry-after") = some s →
      parseNat? s = some k →
      (update_from_rate_limit_error info headers retry_after_header now).2 = k * 1000) ∧
    (∀ s d, headerGet headers (retry_after_header.getD "retry-after") = some s →
      parseNat? s = none → parse_duration_string s = some d →
      (update_from_rate_limit_error info headers retry_after_header now).2 = d) ∧
    (update_from_rate_limit_error info [] retry_after_header now).2 = 60000 := by
  refine ⟨rfl, rfl, fun h => ?_, fun s hs hn hd => ?_, fun s k hs hk => ?_,
    fun s d hs hn hd => ?_, rfl⟩
  · simp [update_from_rate_limit_error, h]
  · simp [update_from_rate_limit_error, hs, hn, hd]
  · simp [update_from_rate_limit_error, hs, hk]
  · simp [update_from_rate_limit_error, hs, hn, hd]

theorem C7_record_rate_limit_error_witness :
    (headerGet [("retry-after", "7")] ((none : Option String).getD "retry-after") =
        some "7" ∧
      parseNat? "7" = some 7 ∧
      (update_from_rate_limit_error {} [("retry-after", "7")] none 0).2 = 7 * 1000) ∧
    (update_from_rate_limit_error {} [] none 0).2 = 60000 :=
  ⟨⟨by decide, by decide,
    (C7_record_rate_limit_error {} [("retry-after", "7")] none 0).2.2.2.2.1 "7" 7
      (by decide) (by decide)⟩,
   (C7_record_rate_limit_error {} [] none 0).2.2.2.2.2.2⟩

/-- C3 fails as stated: recording a rate-limit error whose retry-after
header reads "0" stores a zero duration and a reset deadline equal to
now, and the wait hint immediately afterwards is `none`, not
non-`none`. -/
theorem C3_wait_hint_counterexample :
    (update_from_rate_limit_error {} [("retry-after", "0")] none 1000).2 = 0 ∧
    should_wait
      (update_from_rate_limit_error {} [("retry-after", "0")] none 1000).1
      1000 = none :=
  ⟨by rfl, by rfl⟩

/-- C3 (amended): for every provider state in which a set retry-after is
paired with a reset deadline (the update functions only produce such
states, as the preservation conjuncts show), the wait hint is a positive
duration exactly when the remaining-request count is exactly zero and
the reset deadline is in the future, or a retry-after is set and its
paired reset deadline has not elapsed; it is `none` after recording a
response with remaining > 0 when no retry-after is recorded, and it is
non-`none` immediately after recording a rate-limit error whenever the
recorded duration is positive (a retry-after header of "0" being the
only exception). -/
theorem C3_wait_hint (info : ProviderRateLimit)
    (headers : List (String × String))
    (remaining_header reset_header retry_after_header : Option String)
    (now t n : Nat)
    (hinv : info.retry_after.isSome = true → info.reset_at.isSome = true) :
    ((should_wait info now).isSome = true ↔
      ((info.requests_remaining = some 0 ∧
          ∃ r, info.reset_at = some r ∧ now < r) ∨
       (info.retry_after.isSome = true ∧
          ∃ r, info.reset_at = some r ∧ now < r))) ∧
    (∀ w, should_wait info now = some w → 0 < w) ∧
    ((update_from_response info headers remaining_header reset_header t).retry_after.isSome = true →
      (update_from_response info headers remaining_header reset_header t).reset_at.isSome = true) ∧
    ((update_from_rate_limit_error info headers retry_after_header t).1.retry_after.isSome = true →
      (update_from_rate_limit_error info headers retry_after_header t).1.reset_at.isSome = true) ∧
    (info.retry_after = none →
      (update_from_response info headers remaining_header reset_header t).requests_remaining = some n →
      0 < n →
      should_wait (update_from_response info headers remaining_header reset_header t) now = none) ∧
    (0 < (update_from_rate_limit_error info headers retry_after_header t).2 →
      (should_wait (update_from_rate_limit_error info headers retry_after_header t).1 t).isSome = true) := by
  refine ⟨should_wait_isSome_iff info now hinv,
    fun w hw => should_wait_pos info now w hinv hw, fun _ => ?_, fun _ => ?_,
    fun hnone hreq hn => ?_, fun hpos => ?_⟩
  · rcases update_from_response_reset_at info headers remaining_header reset_header t with h | ⟨x, h⟩
    · rw [h]
      exact hinv (by rwa [update_from_response_retry_after] at *)
    · rw [h]
      rfl
  · rw [(update_from_rate_limit_error_fields info headers retry_after_header t).2.1]
    rfl
  · refine should_wait_none_of _ now ?_ ?_
    · rw [hreq]
      intro hcontra
      have := Option.some.inj hcontra
      omega
    · rw [update_from_response_retry_after, hnone]
  · refine should_wait_isSome_of _ t
      (t + (update_from_rate_limit_error info headers retry_after_header t).2)
      (update_from_rate_limit_error_fields info headers retry_after_header t).2.1
      ?_ (by omega)
    rw [(update_from_rate_limit_error_fields info headers retry_after_header t).1]
    rfl

theorem C3_wait_hint_witness :
    ((({} : ProviderRateLimit).retry_after.isSome = true →
        ({} : ProviderRateLimit).reset_at.isSome = true) ∧
      (({} : ProviderRateLimit).retry_after = none ∧
        (update_from_response {} [("x-ratelimit-remaining-requests", "5")]
          none none 0).requests_remaining = some 5 ∧ 0 < 5) ∧
      should_wait (update_from_response {}
        [("x-ratelimit-remaining-requests", "5")] none none 0) 42 = none) ∧
    (0 < (update_from_rate_limit_error {} [] none 0).2 ∧
      (should_wait (update_from_rate_limit_error {} [] none 0).1 0).isSome = true) :=
  ⟨⟨by decide, ⟨by decide, by decide, by decide⟩,
    (C3_wait_hint {} [("x-ratelimit-remaining-requests", "5")] none none none
      42 0 5 (by decide)).2.2.2.2.1 (by decide) (by decide) (by decide)⟩,
   ⟨by decide,
    (C3_wait_hint {} [] none none none 0 0 0 (by decide)).2.2.2.2.2
      (by decide)⟩⟩

/-- C4: for every non-empty pool under any rotation policy (the random
draw modelled by an arbitrary seed), selection never returns a
cooled-down credential while an uncooled one exists; and when every
credential is cooled down, `all_rate_limited` is true and selection
still returns some credential — the same one for every policy, namely
`get_soonest_available`, the first credential minimizing the remaining
cooldown — never `None`. -/
theorem C4_selection (p : KeyPool) (now seed : Nat) (hne : p.keys ≠ []) :
    ((∃ k ∈ p.keys, k.is_rate_limited now = false) →
      ∃ k, (p.get_key now seed).1 = some k ∧ k.is_rate_limited now = false) ∧
    ((∀ k ∈ p.keys, k.is_rate_limited now = true) →
      p.all_rate_limited now = true ∧
      (p.get_key now seed).1 = get_soonest_available p.keys now ∧
      ∃ k, get_soonest_available p.keys now = some k ∧ k ∈ p.keys ∧
        ∀ x ∈ p.keys, (k.rate_limit_remaining now).getD 0 ≤
          (x.rate_limit_remaining now).getD 0) := by
  refine ⟨get_key_uncooled p now seed hne, fun hall => ⟨?_, ?_, ?_⟩⟩
  · simp only [KeyPool.all_rate_limited, List.all_eq_true]
    intro k hk
    simpa using hall k hk
  · exact get_key_all_cooled p now seed hne hall
  · exact get_soonest_available_spec p.keys now hne

theorem C4_selection_witness :
    (exPoolMixed.keys ≠ [] ∧
      (∃ k ∈ exPoolMixed.keys, k.is_rate_limited 0 = false) ∧
      ∃ k, (exPoolMixed.get_key 0 0).1 = some k ∧
        k.is_rate_limited 0 = false) ∧
    (exPoolAllCooled.keys ≠ [] ∧
      (∀ k ∈ exPoolAllCooled.keys, k.is_rate_limited 0 = true) ∧
      (exPoolAllCooled.all_rate_limited 0 = true ∧
       (exPoolAllCooled.get_key 0 0).1 =
         get_soonest_available exPoolAllCooled.keys 0 ∧
       ∃ k, get_soonest_available exPoolAllCooled.keys 0 = some k ∧
         k ∈ exPoolAllCooled.keys ∧
         ∀ x ∈ exPoolAllCooled.keys, (k.rate_limit_remaining 0).getD 0 ≤
           (x.rate_limit_remaining 0).getD 0)) :=
  ⟨⟨by decide, by decide,
    (C4_selection exPoolMixed 0 0 (by decide)).1 (by decide)⟩,
   ⟨by decide, by decide,
    (C4_selection exPoolAllCooled 0 0 (by decide)).2 (by decide)⟩⟩

/-- C6: for a non-empty round-robin pool of size n with no credential
cooled down, n consecutive selections return exactly the keys at cursor,
cursor+1, …, cursor+n-1 (mod n) — the shared cursor advances by one per
selection — and these n positions are pairwise distinct and cover every
index, so every credential is visited exactly once before any repeats. -/
theorem C6_round_robin_cycle (p : KeyPool) (now : Nat)
    (hs : p.strategy = RotationStrategy.RoundRobin) (hne : p.keys ≠ [])
    (hfree : ∀ k ∈ p.keys, k.is_rate_limited now = false) :
    (selectRR p now p.keys.length).1 =
      (List.range p.keys.length).map
        (fun i => some (p.keys.getD
          ((p.current_index + i) % p.keys.length) default)) ∧
    (∀ i j, i < p.keys.length → j < p.keys.length → i ≠ j →
      (p.current_index + i) % p.keys.length ≠
        (p.current_index + j) % p.keys.length) ∧
    (∀ jdx, jdx < p.keys.length → ∃ i, i < p.keys.length ∧
      (p.current_index + i) % p.keys.length = jdx) := by
  have hlen : 0 < p.keys.length := List.length_pos.mpr hne
  refine ⟨?_, ?_, rr_index_surj p.keys.length p.current_index hlen⟩
  · have h := selectRR_free p now hs hne hfree p.keys.length p.current_index
    simpa using h
  · intro i j hi hj hij heq
    exact hij (rr_index_inj p.keys.length p.current_index i j hi hj heq)

theorem C6_round_robin_cycle_witness :
    (exPoolFree.strategy = RotationStrategy.RoundRobin ∧
      exPoolFree.keys ≠ [] ∧
      (∀ k ∈ exPoolFree.keys, k.is_rate_limited 0 = false)) ∧
    ((selectRR exPoolFree 0 exPoolFree.keys.length).1 =
      (List.range exPoolFree.keys.length).map
        (fun i => some (exPoolFree.keys.getD
          ((exPoolFree.current_index + i) % exPoolFree.keys.length) default)) ∧
    (∀ i j, i < exPoolFree.keys.length → j < exPoolFree.keys.length → i ≠ j →
      (exPoolFree.current_index + i) % exPoolFree.keys.length ≠
        (exPoolFree.current_index + j) % exPoolFree.keys.length) ∧
    (∀ jdx, jdx < exPoolFree.keys.length → ∃ i, i < exPoolFree.keys.length ∧
      (exPoolFree.current_index + i) % exPoolFree.keys.length = jdx)) :=
  ⟨⟨rfl, by decide, by decide⟩,
   C6_round_robin_cycle exPoolFree 0 rfl (by decide) (by decide)⟩

/-- C5 fails as stated: on a rate-limit signal the buffered transport
does not record the error into the Rate Limit Tracker — it never calls
`update_from_rate_limit_error`.  After a 429 exhausts a zero-retry
budget, the tracker entry still has no retry-after recorded, whereas
recording the error would have stored the 60-second default. -/
theorem C5_counterexample :
    post_with_retry (β := String) some "prov" 0 1000 none [exOutcome429] =
      some (Except.error (LlmaoError.RateLimited "prov" none),
        some ({} : ProviderRateLimit)) ∧
    trackerRetryAfter (some ({} : ProviderRateLimit)) = none ∧
    trackerRetryAfter (trackerUpdateFromRateLimitError none [] none 1000).1 =
      some 60000 :=
  ⟨by rfl, rfl, rfl⟩

/-- C5 (amended): on a rate-limit signal the buffered transport updates
the tracker only from the response's headers — the error itself is never
recorded into the tracker, so the stored retry-after is unchanged across
the whole send — and it retries (backoff wait, then resend) up to
max_retries times; exceeding the budget yields the distinct rate-limited
error carrying the provider name, and the dispatch loop over the
credential pool, when every attempt comes back rate-limited, terminates
with a rate-limited error naming the provider. -/
theorem C5_retry_budget {β : Type} (parseBody : String → Option β)
    (provider : String) (max_retries now : Nat)
    (tracker : Option ProviderRateLimit) (trace : List AttemptOutcome)
    (results : List (Except LlmaoError β)) (last : Option LlmaoError) :
    ((∀ a ∈ trace, isRateLimitedAttempt a = true) →
      max_retries < trace.length →
      ∃ t, post_with_retry parseBody provider max_retries now tracker trace =
        some (Except.error (.RateLimited provider none), t)) ∧
    (∀ e t, post_with_retry parseBody provider max_retries now tracker trace =
        some (e, t) → trackerRetryAfter t = trackerRetryAfter tracker) ∧
    (results ≠ [] →
      (∀ r ∈ results, ∃ pv ra, r = Except.error (.RateLimited pv ra)) →
      ∃ ra, completion_loop provider results last =
        Except.error (.RateLimited provider ra)) := by
  refine ⟨fun hall hlen => ?_, fun e t h => ?_, fun hne hall =>
    completion_loop_all_rate_limited provider results last hne hall⟩
  · have hne : trace ≠ [] := by
      intro hnil
      rw [hnil] at hlen
      simp at hlen
    exact post_with_retry_go_budget parseBody provider max_retries now trace
      tracker 0 hall hne (by omega)
  · exact post_with_retry_go_no_recording parseBody provider max_retries now
      trace tracker 0 e t h

theorem C5_retry_budget_witness :
    ((∀ a ∈ [exOutcome429, exOutcome429], isRateLimitedAttempt a = true) ∧
      (1 : Nat) < ([exOutcome429, exOutcome429] : List AttemptOutcome).length ∧
      ∃ t, post_with_retry (β := String) some "prov" 1 0 none
        [exOutcome429, exOutcome429] =
          some (Except.error (.RateLimited "prov" none), t)) ∧
    (([Except.error (.RateLimited "x" none)] : List (Except LlmaoError String)) ≠ [] ∧
      (∀ r ∈ ([Except.error (.RateLimited "x" none)] :
          List (Except LlmaoError String)),
        ∃ pv ra, r = Except.error (.RateLimited pv ra)) ∧
      ∃ ra, completion_loop "prov"
          ([Except.error (.RateLimited "x" none)] :
            List (Except LlmaoError String)) none =
        Except.error (.RateLimited "prov" ra)) :=
  ⟨⟨by decide, by decide,
    (C5_retry_budget (β := String) some "prov" 1 0 none
      [exOutcome429, exOutcome429] [] none).1 (by decide) (by decide)⟩,
   ⟨List.cons_ne_nil _ _, fun r hr => by
      rcases List.mem_singleton.mp hr with h
      exact ⟨"x", none, h⟩,
    (C5_retry_budget (β := String) some "prov" 1 0 none []
      [Except.error (.RateLimited "x" none)] none).2.2 (List.cons_ne_nil _ _)
      (fun r hr => by
        rcases List.mem_singleton.mp hr with h
        exact ⟨"x", none, h⟩)⟩⟩

end Llmao
